import Mathlib

/-!
Verification of the course-matching / skill-aggregation / interest-selection
core of the transcript-skills-analysis lambda (src/lambda_function.py).

Strings are modelled as lists of Unicode code points (Python strings are
sequences of code points); numbers that can be divided are modelled as
rationals.  A Python dict that preserves insertion order is modelled as an
association list in insertion order.  A Python expression that can raise
(a missing dict key, division by zero) is modelled in the Except monad.
-/

deriving instance DecidableEq for Except

/-- A Python string: a list of Unicode code points. -/
abbrev Str := List Nat

/-- One code point of Python str.upper restricted to ASCII letters:
lowercase a..z (97..122) maps to A..Z, everything else is unchanged. -/
def upperChar (c : Nat) : Nat :=
  if 97 ≤ c ∧ c ≤ 122 then c - 32 else c

/-- Python str.upper on an (ASCII) string. -/
def upper (s : Str) : Str := s.map upperChar

/-- Python `p in s` on strings: contiguous-substring containment,
via the prefix check of core Lean. -/
def isSubstr (p : Str) : Str → Bool
  | [] => List.isPrefixOf p []
  | c :: rest => List.isPrefixOf p (c :: rest) || isSubstr p rest

/-- A curated skill entry of a registry course, keys as in the source:
skill_id, skill (the name), skill_category, frequency, skill_level. -/
structure SkillEntry where
  skill_id : Str
  skill : Str
  skill_category : Str
  frequency : ℚ
  skill_level : ℚ
deriving DecidableEq

/-- A registry course record.  `code = none` models a course JSON object
with no "code" key at all (so `course["code"]` raises KeyError, while
`course.get("code")` yields None); `code = some s` models a present string
code, which may be the empty string. -/
structure Course where
  code : Option Str
  name : Str
  skills_curated : List SkillEntry
deriving DecidableEq

/-- Line 25 of the source:
`[course["code"].upper() for course in all_courses if course["code"]]`.
Evaluates `course["code"]` (raising on an absent key), keeps the truthy
(non-empty) ones, and uppercases them, in registry order. -/
def allCourseCodes : List Course → Except Unit (List Str)
  | [] => .ok []
  | c :: cs =>
    match c.code with
    | none => .error ()
    | some cd =>
      match allCourseCodes cs with
      | .error e => .error e
      | .ok rest => if cd = [] then .ok rest else .ok (upper cd :: rest)

/-- Lines 29-32 of the source: the candidate list accumulated for one query
code.  For each entry of `all_course_codes` that contains the query code as a
substring, all registry courses whose stored code equals that (uppercased)
entry are appended. -/
def candidatesFor (given_code : Str) (all_courses : List Course) (codes : List Str) :
    List Course :=
  codes.flatMap fun code_to_evaluate =>
    if isSubstr given_code code_to_evaluate then
      all_courses.filter fun c => decide (c.code = some code_to_evaluate)
    else []

/-- Lines 28-42 of the source: the per-query loop.  A query with exactly one
candidate contributes that candidate to `found_student_courses`; a query with
zero or with two or more candidates contributes its (title, code) pair to
`missing_codes`.  Both lists keep query order. -/
def resolveLoop (queries : List (Str × Str)) (all_courses : List Course)
    (codes : List Str) : List Course × List (Str × Str) :=
  match queries with
  | [] => ([], [])
  | (given_title, given_code) :: qs =>
    let cands := candidatesFor given_code all_courses codes
    let rest := resolveLoop qs all_courses codes
    match cands with
    | [c] => (c :: rest.1, rest.2)
    | _ => (rest.1, (given_title, given_code) :: rest.2)

/-- The whole body of find_relevant_courses, keeping both of its local
accumulators: the matched courses and the missing (title, code) pairs. -/
def findRelevantCoursesFull (queries : List (Str × Str)) (all_courses : List Course) :
    Except Unit (List Course × List (Str × Str)) :=
  match allCourseCodes all_courses with
  | .error e => .error e
  | .ok codes => .ok (resolveLoop queries all_courses codes)

/-- find_relevant_courses as the caller sees it (line 46 of the source):
only `found_student_courses` is returned; `missing_codes` is merely printed. -/
def findRelevantCourses (queries : List (Str × Str)) (all_courses : List Course) :
    Except Unit (List Course) :=
  match findRelevantCoursesFull queries all_courses with
  | .error e => .error e
  | .ok r => .ok r.1

/-- The reason attached to an unresolved query by the specification. -/
inductive Reason where
  | not_found
  | ambiguous
deriving DecidableEq

/-- Modelled from the spec: the MatchResult contract of section 4.1, which is
absent from the source (the source returns only the matched list).  Registry
courses with an empty or absent code are excluded; a query's candidates are
the remaining courses whose uppercased code contains the query code; exactly
one candidate is matched, zero yields reason not_found, two or more yields
reason ambiguous, both returned alongside the matches. -/
def resolveSpecModel (queries : List (Str × Str)) (registry : List Course) :
    List Course × List (Str × Str × Reason) :=
  let pool := registry.filter fun c =>
    match c.code with
    | some w => decide (w ≠ [])
    | none => false
  (queries.filterMap fun q =>
     match pool.filter (fun c => isSubstr q.2 (upper (c.code.getD []))) with
     | [c] => some c
     | _ => none,
   queries.filterMap fun q =>
     match pool.filter (fun c => isSubstr q.2 (upper (c.code.getD []))) with
     | [] => some (q.1, q.2, Reason.not_found)
     | [_] => none
     | _ => some (q.1, q.2, Reason.ambiguous))

/-- The cumulative per-skill record of package_skills, keys as in the source
(lines 59-67); skill_level_average is the key added later by
get_skills_of_interest (line 89), absent (none) until then. -/
structure SkillRec where
  name : Str
  category : Str
  frequency : ℚ
  count : Nat
  max_skill_level : ℚ
  sum_skill_level : ℚ
  courses : List (Str × ℚ)
  skill_level_average : Option ℚ
deriving DecidableEq

/-- The student_skills dict: an insertion-ordered association list from
skill_id to its record. -/
abbrev SkillMap := List (Str × SkillRec)

/-- Lines 59-67 of the source: the record created on the first occurrence of
a skill. -/
def initRec (cd : Str) (sk : SkillEntry) : SkillRec :=
  { name := sk.skill
    category := sk.skill_category
    frequency := sk.frequency
    count := 1
    max_skill_level := sk.skill_level
    sum_skill_level := sk.skill_level
    courses := [(cd, sk.skill_level)]
    skill_level_average := none }

/-- Lines 69-73 of the source: the in-place update on a later occurrence. -/
def updRec (r : SkillRec) (cd : Str) (sk : SkillEntry) : SkillRec :=
  { r with
    count := r.count + 1
    max_skill_level :=
      if sk.skill_level > r.max_skill_level then sk.skill_level else r.max_skill_level
    sum_skill_level := r.sum_skill_level + sk.skill_level
    courses := r.courses ++ [(cd, sk.skill_level)] }

/-- Lines 57-73 of the source: one upsert into the ordered dict — an existing
key is updated in place, a new key is inserted at the end. -/
def upsertSkill (m : SkillMap) (cd : Str) (sk : SkillEntry) : SkillMap :=
  match m with
  | [] => [(sk.skill_id, initRec cd sk)]
  | (k, r) :: rest =>
    if k = sk.skill_id then (k, updRec r cd sk) :: rest
    else (k, r) :: upsertSkill rest cd sk

/-- One skill iteration of package_skills; `course["code"]` (lines 66 and 73)
raises KeyError when the course has no code key. -/
def packageOne (m : SkillMap) (c : Course) (sk : SkillEntry) : Except Unit SkillMap :=
  match c.code with
  | none => .error ()
  | some cd => .ok (upsertSkill m cd sk)

/-- The inner loop of package_skills (lines 56-73) over a list of curated
skills of the course `c`. -/
def packageInner (m : SkillMap) (c : Course) : List SkillEntry → Except Unit SkillMap
  | [] => .ok m
  | sk :: sks =>
    match packageOne m c sk with
    | .error e => .error e
    | .ok m2 => packageInner m2 c sks

/-- The outer loop of package_skills (lines 55-73). -/
def packageGo (m : SkillMap) : List Course → Except Unit SkillMap
  | [] => .ok m
  | c :: cs =>
    match packageInner m c c.skills_curated with
    | .error e => .error e
    | .ok m2 => packageGo m2 cs

/-- Lines 53-74 of the source: package_skills. -/
def packageSkills (course_skill_data : List Course) : Except Unit SkillMap :=
  packageGo [] course_skill_data

/-- The accumulator state of the get_skills_of_interest scan (lines 77-82),
plus the already-scanned entries with their skill_level_average stored
(modelling the in-place mutation of line 89).  The initial
unique_skill_frequency is float("inf"), modelled as the top element. -/
structure SelAcc where
  max_count_skill : Option Str
  max_count : Nat
  max_level_skill : Option Str
  max_average_level : ℚ
  unique_skill : Option Str
  unique_skill_frequency : WithTop ℚ
  processed : SkillMap
deriving DecidableEq

/-- Lines 77-82 of the source: the initial scan state. -/
def selInit : SelAcc :=
  { max_count_skill := none
    max_count := 0
    max_level_skill := none
    max_average_level := 0
    unique_skill := none
    unique_skill_frequency := ⊤
    processed := [] }

/-- Lines 84-96 of the source: one iteration of the scan.  The division of
line 88 raises ZeroDivisionError when the record's courses list is empty. -/
def selStep (acc : SelAcc) (p : Str × SkillRec) : Except Unit SelAcc :=
  if p.2.courses.length = 0 then .error ()
  else
    let skill_average : ℚ := p.2.sum_skill_level / (p.2.courses.length : ℚ)
    .ok
      { max_count_skill :=
          if p.2.count > acc.max_count then some p.1 else acc.max_count_skill
        max_count :=
          if p.2.count > acc.max_count then p.2.count else acc.max_count
        max_level_skill :=
          if skill_average > acc.max_average_level then some p.1 else acc.max_level_skill
        max_average_level :=
          if skill_average > acc.max_average_level then skill_average
          else acc.max_average_level
        unique_skill :=
          if (p.2.frequency : WithTop ℚ) < acc.unique_skill_frequency then some p.1
          else acc.unique_skill
        unique_skill_frequency :=
          if (p.2.frequency : WithTop ℚ) < acc.unique_skill_frequency then
            (p.2.frequency : WithTop ℚ)
          else acc.unique_skill_frequency
        processed :=
          acc.processed ++ [(p.1, { p.2 with skill_level_average := some skill_average })] }

/-- The scan loop of get_skills_of_interest (lines 83-96). -/
def selGo (acc : SelAcc) : SkillMap → Except Unit SelAcc
  | [] => .ok acc
  | p :: rest =>
    match selStep acc p with
    | .error e => .error e
    | .ok acc2 => selGo acc2 rest

/-- Lines 76-99 of the source: get_skills_of_interest.  Returns the dict
after its in-place mutation together with the returned triple
[max_count_skill, max_level_skill, unique_skill]. -/
def getSkillsOfInterest (all_skills : SkillMap) :
    Except Unit (SkillMap × (Option Str × Option Str × Option Str)) :=
  match selGo selInit all_skills with
  | .error e => .error e
  | .ok acc =>
    .ok (acc.processed, (acc.max_count_skill, acc.max_level_skill, acc.unique_skill))

/-- A course whose stored code is non-empty and already equal to its own
uppercased form (only such courses can ever be recovered as candidates by
line 32 of the source). -/
def isUpperCoded (c : Course) : Bool :=
  match c.code with
  | some w => decide (w ≠ [] ∧ upper w = w)
  | none => false

/-- A course whose stored code is non-empty and uppercases to `u` (such a
course contributes the entry `u` to all_course_codes). -/
def hasUpperCode (u : Str) (c : Course) : Bool :=
  match c.code with
  | some w => decide (w ≠ [] ∧ upper w = u)
  | none => false

/-- The (course code, skill entry) occurrences of the skill id across a
course list, in processing order of package_skills. -/
def occsOf (id : Str) (l : List Course) : List (Str × SkillEntry) :=
  l.flatMap fun c =>
    (c.skills_curated.filter fun sk => decide (sk.skill_id = id)).map
      fun sk => (c.code.getD [], sk)

/-- The skill record determined by a non-empty occurrence list: metadata from
the first occurrence, count = number of occurrences, max / sum over all
levels, courses in occurrence order. -/
def recOf (first : Str × SkillEntry) (rest : List (Str × SkillEntry)) : SkillRec :=
  { name := first.2.skill
    category := first.2.skill_category
    frequency := first.2.frequency
    count := rest.length + 1
    max_skill_level := rest.foldl (fun a p => max a p.2.skill_level) first.2.skill_level
    sum_skill_level := first.2.skill_level + (rest.map fun p => p.2.skill_level).sum
    courses := (first :: rest).map fun p => (p.1, p.2.skill_level)
    skill_level_average := none }

/-- The flat aggregation fold over (code, skill entry) pairs; package_skills
on courses with present codes reduces to it. -/
def aggF (m : SkillMap) (l : List (Str × SkillEntry)) : SkillMap :=
  l.foldl (fun m p => upsertSkill m p.1 p.2) m

/-- The per-key update that an upsert applies to the looked-up record. -/
def bump (cd : Str) (sk : SkillEntry) : Option SkillRec → Option SkillRec
  | none => some (initRec cd sk)
  | some r => some (updRec r cd sk)

/-- The average that line 88 of the source computes for a record. -/
def avgOf (r : SkillRec) : ℚ := r.sum_skill_level / (r.courses.length : ℚ)

/-- The in-place mutation of line 89 on one dict entry. -/
def setAvgEntry (p : Str × SkillRec) : Str × SkillRec :=
  (p.1, { p.2 with skill_level_average := some (avgOf p.2) })

/-- One iteration of the selection scan without the ZeroDivisionError check
(the total model used once the check is discharged). -/
def selStepT (acc : SelAcc) (p : Str × SkillRec) : SelAcc :=
  { max_count_skill :=
      if p.2.count > acc.max_count then some p.1 else acc.max_count_skill
    max_count :=
      if p.2.count > acc.max_count then p.2.count else acc.max_count
    max_level_skill :=
      if avgOf p.2 > acc.max_average_level then some p.1 else acc.max_level_skill
    max_average_level :=
      if avgOf p.2 > acc.max_average_level then avgOf p.2 else acc.max_average_level
    unique_skill :=
      if (p.2.frequency : WithTop ℚ) < acc.unique_skill_frequency then some p.1
      else acc.unique_skill
    unique_skill_frequency :=
      if (p.2.frequency : WithTop ℚ) < acc.unique_skill_frequency then
        (p.2.frequency : WithTop ℚ)
      else acc.unique_skill_frequency
    processed := acc.processed ++ [setAvgEntry p] }

/-- The selection scan without error checks. -/
def selGoT (acc : SelAcc) : SkillMap → SelAcc
  | [] => acc
  | p :: rest => selGoT (selStepT acc p) rest

/-- The first entry of the map whose count is greatest (ties keep the
earlier entry), as the specification describes most_common_skill_id. -/
def firstMaxCount (m : SkillMap) : Option Str :=
  (m.find? fun p => m.all fun q => decide (q.2.count ≤ p.2.count)).map Prod.fst

/-- The first entry of the map whose average level is greatest (ties keep
the earlier entry), as the specification describes
highest_average_level_skill_id. -/
def firstMaxAvg (m : SkillMap) : Option Str :=
  (m.find? fun p => m.all fun q => decide (avgOf q.2 ≤ avgOf p.2)).map Prod.fst

/-- The first entry of the map whose frequency is smallest (ties keep the
earlier entry), as the specification describes rarest_skill_id. -/
def firstMinFreq (m : SkillMap) : Option Str :=
  (m.find? fun p => m.all fun q => decide (p.2.frequency ≤ q.2.frequency)).map Prod.fst

/-- A running-best scan: it replaces the held key exactly when the new value
strictly beats the held value, so ties keep the earlier element. -/
def foldBest {α β γ : Type} [LinearOrder α] (f : β → α) (key : β → γ)
    (s : Option γ) (v : α) : List β → Option γ × α
  | [] => (s, v)
  | x :: xs =>
    if v < f x then foldBest f key (some (key x)) (f x) xs
    else foldBest f key s v xs

theorem upperChar_idem (c : Nat) : upperChar (upperChar c) = upperChar c := by
  unfold upperChar
  split_ifs <;> omega

theorem upper_idem (s : Str) : upper (upper s) = upper s := by
  simp only [upper, List.map_map]
  exact List.map_congr_left fun a _ => upperChar_idem a

theorem upper_eq_nil {s : Str} : upper s = [] ↔ s = [] := by
  simp [upper]

theorem isSubstr_nil_left (s : Str) : isSubstr [] s = true := by
  induction s <;> simp [isSubstr, List.isPrefixOf, *]

theorem allCourseCodes_char {all : List Course} {codes : List Str}
    (h : allCourseCodes all = .ok codes) :
    ∀ u ∈ codes, ∃ c ∈ all, ∃ w, c.code = some w ∧ w ≠ [] ∧ u = upper w := by
  induction all generalizing codes with
  | nil =>
    simp only [allCourseCodes, Except.ok.injEq] at h
    subst h
    simp
  | cons c cs ih =>
    cases hc : c.code with
    | none => simp [allCourseCodes, hc] at h
    | some cd =>
      cases hr : allCourseCodes cs with
      | error e => simp [allCourseCodes, hc, hr] at h
      | ok rest =>
        simp only [allCourseCodes, hc, hr] at h
        by_cases hcd : cd = []
        · rw [if_pos hcd] at h
          injection h with h
          subst h
          intro u hu
          obtain ⟨d, hd, w, hw⟩ := ih hr u hu
          exact ⟨d, List.mem_cons_of_mem _ hd, w, hw⟩
        · rw [if_neg hcd] at h
          injection h with h
          subst h
          intro u hu
          rcases List.mem_cons.mp hu with h1 | h1
          · exact ⟨c, List.mem_cons_self _ _, cd, hc, hcd, h1⟩
          · obtain ⟨d, hd, w, hw⟩ := ih hr u h1
            exact ⟨d, List.mem_cons_of_mem _ hd, w, hw⟩

theorem allCourseCodes_mem {all : List Course} {codes : List Str}
    (h : allCourseCodes all = .ok codes) {c : Course} (hc : c ∈ all) {w : Str}
    (hw : c.code = some w) (hne : w ≠ []) : upper w ∈ codes := by
  induction all generalizing codes with
  | nil => cases hc
  | cons d ds ih =>
    cases hd : d.code with
    | none => simp [allCourseCodes, hd] at h
    | some cd =>
      cases hr : allCourseCodes ds with
      | error e => simp [allCourseCodes, hd, hr] at h
      | ok rest =>
        simp only [allCourseCodes, hd, hr] at h
        rcases List.mem_cons.mp hc with h1 | h1
        · subst h1
          rw [hd] at hw
          injection hw with hw
          subst hw
          rw [if_neg hne] at h
          injection h with h
          subst h
          exact List.mem_cons_self _ _
        · by_cases hcd : cd = []
          · rw [if_pos hcd] at h
            injection h with h
            subst h
            exact ih hr h1
          · rw [if_neg hcd] at h
            injection h with h
            subst h
            exact List.mem_cons_of_mem _ (ih hr h1)

theorem allCourseCodes_entry_ne_nil {all : List Course} {codes : List Str}
    (h : allCourseCodes all = .ok codes) {u : Str} (hu : u ∈ codes) :
    u ≠ [] ∧ upper u = u := by
  obtain ⟨c, _, w, _, hne, rfl⟩ := allCourseCodes_char h u hu
  refine ⟨fun hnil => hne (upper_eq_nil.mp hnil), upper_idem w⟩

theorem mem_candidatesFor {gc : Str} {all : List Course} {codes : List Str}
    {c : Course} :
    c ∈ candidatesFor gc all codes ↔
      ∃ cte ∈ codes, isSubstr gc cte = true ∧ c ∈ all ∧ c.code = some cte := by
  constructor
  · intro hmem
    obtain ⟨cte, hcte, hc⟩ := List.mem_flatMap.mp hmem
    by_cases hs : isSubstr gc cte = true
    · rw [if_pos hs] at hc
      obtain ⟨hin, hcode⟩ := List.mem_filter.mp hc
      exact ⟨cte, hcte, hs, hin, of_decide_eq_true hcode⟩
    · rw [if_neg hs] at hc
      cases hc
  · rintro ⟨cte, hcte, hs, hin, hcode⟩
    refine List.mem_flatMap.mpr ⟨cte, hcte, ?_⟩
    rw [if_pos hs]
    exact List.mem_filter.mpr ⟨hin, decide_eq_true hcode⟩

theorem resolveLoop_found (qs : List (Str × Str)) (all : List Course)
    (codes : List Str) :
    (resolveLoop qs all codes).1 =
      qs.filterMap fun q =>
        match candidatesFor q.2 all codes with
        | [c] => some c
        | _ => none := by
  induction qs with
  | nil => rfl
  | cons q qs ih =>
    obtain ⟨t, cd⟩ := q
    rcases hc : candidatesFor cd all codes with _ | ⟨c1, _ | ⟨c2, cs⟩⟩ <;>
      simp [resolveLoop, hc, ih, List.filterMap_cons]

theorem resolveLoop_missing (qs : List (Str × Str)) (all : List Course)
    (codes : List Str) :
    (resolveLoop qs all codes).2 =
      qs.filter fun q => decide ((candidatesFor q.2 all codes).length ≠ 1) := by
  induction qs with
  | nil => rfl
  | cons q qs ih =>
    obtain ⟨t, cd⟩ := q
    rcases hc : candidatesFor cd all codes with _ | ⟨c1, _ | ⟨c2, cs⟩⟩ <;>
      simp [resolveLoop, hc, ih, List.filter_cons]

/-- Claim C1: the claim is right and the code is wrong.  On the registry
containing the single course with code cs1 and the query (T, CS1), the
query code CS1 is a substring of the unique uppercased registry code,
yet find_relevant_courses matches nothing and records the query as not
found: line 32 of the source compares the stored (still lowercase) code
against the uppercased entry, so a lowercase-coded course is never
recovered as a candidate. -/
theorem c1_lowercase_registry_code_divergence :
    isSubstr [67, 83, 49] (upper [99, 115, 49]) = true ∧
    allCourseCodes [{ code := some [99, 115, 49], name := [], skills_curated := [] }] =
      .ok [[67, 83, 49]] ∧
    findRelevantCourses [([84], [67, 83, 49])]
      [{ code := some [99, 115, 49], name := [], skills_curated := [] }] = .ok [] ∧
    findRelevantCoursesFull [([84], [67, 83, 49])]
      [{ code := some [99, 115, 49], name := [], skills_curated := [] }] =
      .ok ([], [([84], [67, 83, 49])]) := by
  decide

/-- Claim C2, counterexample: the function's observable behaviour does not
carry the unresolved reasons.  A not_found situation (registry [MA1], query
code CS) and an ambiguous situation (registry [CS1, CS2], same query)
produce identical outputs — even including the internal missing_codes
accumulator — whereas the spec's MatchResult distinguishes them. -/
theorem c2_no_reason_returned_cex :
    findRelevantCoursesFull [([84], [67, 83])]
        [{ code := some [77, 65, 49], name := [], skills_curated := [] }] =
      findRelevantCoursesFull [([84], [67, 83])]
        [{ code := some [67, 83, 49], name := [], skills_curated := [] },
         { code := some [67, 83, 50], name := [], skills_curated := [] }] ∧
    resolveSpecModel [([84], [67, 83])]
        [{ code := some [77, 65, 49], name := [], skills_curated := [] }] ≠
      resolveSpecModel [([84], [67, 83])]
        [{ code := some [67, 83, 49], name := [], skills_curated := [] },
         { code := some [67, 83, 50], name := [], skills_curated := [] }] := by
  decide

/-- Claim C2 (amended): find_relevant_courses partitions the queries — each
query contributes either one matched course (exactly one candidate) or its
(title, code) pair, without any reason, to the missing list — but only the
matched list is returned to the caller; the missing list and the reasons are
only printed. -/
theorem c2_matched_only_partition (qs : List (Str × Str)) (all : List Course)
    (codes : List Str) (h : allCourseCodes all = .ok codes) :
    findRelevantCourses qs all = .ok (resolveLoop qs all codes).1 ∧
    findRelevantCoursesFull qs all = .ok (resolveLoop qs all codes) ∧
    (resolveLoop qs all codes).1 =
      (qs.filterMap fun q =>
        match candidatesFor q.2 all codes with
        | [c] => some c
        | _ => none) ∧
    (resolveLoop qs all codes).2 =
      qs.filter fun q => decide ((candidatesFor q.2 all codes).length ≠ 1) := by
  refine ⟨?_, ?_, resolveLoop_found qs all codes, resolveLoop_missing qs all codes⟩
  · simp [findRelevantCourses, findRelevantCoursesFull, h]
  · simp [findRelevantCoursesFull, h]

/-- Witness for the amended claim C2 at a concrete registry and query list
with one matched and one unmatched query. -/
theorem c2_matched_only_partition_witness :
    allCourseCodes [{ code := some [67, 83, 49], name := [], skills_curated := [] }] =
      .ok [[67, 83, 49]] ∧
    (findRelevantCourses [([84], [67, 83, 49]), ([85], [88])]
        [{ code := some [67, 83, 49], name := [], skills_curated := [] }] =
      .ok (resolveLoop [([84], [67, 83, 49]), ([85], [88])]
        [{ code := some [67, 83, 49], name := [], skills_curated := [] }]
        [[67, 83, 49]]).1 ∧
    findRelevantCoursesFull [([84], [67, 83, 49]), ([85], [88])]
        [{ code := some [67, 83, 49], name := [], skills_curated := [] }] =
      .ok (resolveLoop [([84], [67, 83, 49]), ([85], [88])]
        [{ code := some [67, 83, 49], name := [], skills_curated := [] }]
        [[67, 83, 49]]) ∧
    (resolveLoop [([84], [67, 83, 49]), ([85], [88])]
        [{ code := some [67, 83, 49], name := [], skills_curated := [] }]
        [[67, 83, 49]]).1 =
      ([([84], [67, 83, 49]), ([85], [88])].filterMap fun q =>
        match candidatesFor q.2
            [{ code := some [67, 83, 49], name := [], skills_curated := [] }]
            [[67, 83, 49]] with
        | [c] => some c
        | _ => none) ∧
    (resolveLoop [([84], [67, 83, 49]), ([85], [88])]
        [{ code := some [67, 83, 49], name := [], skills_curated := [] }]
        [[67, 83, 49]]).2 =
      [([84], [67, 83, 49]), ([85], [88])].filter fun q =>
        decide ((candidatesFor q.2
            [{ code := some [67, 83, 49], name := [], skills_curated := [] }]
            [[67, 83, 49]]).length ≠ 1)) :=
  ⟨by decide,
   c2_matched_only_partition [([84], [67, 83, 49]), ([85], [88])]
     [{ code := some [67, 83, 49], name := [], skills_curated := [] }]
     [[67, 83, 49]] (by decide)⟩

/-- Claim C4: the matched output is exactly, in query order, the unique
candidate of each query that has one, and whenever a query is matched to a
course, that course's stored code, as uppercased, contains that query's own
code as a substring. -/
theorem c4_matched_code_contains_query (qs : List (Str × Str)) (all : List Course)
    (found : List Course) (missing : List (Str × Str))
    (h : findRelevantCoursesFull qs all = .ok (found, missing)) :
    ∃ codes, allCourseCodes all = .ok codes ∧
      found = (qs.filterMap fun q =>
        match candidatesFor q.2 all codes with
        | [c] => some c
        | _ => none) ∧
      ∀ q ∈ qs, ∀ c,
        (match candidatesFor q.2 all codes with
          | [c] => some c
          | _ => none) = some c →
        ∃ u, c.code = some u ∧ isSubstr q.2 (upper u) = true := by
  cases hcod : allCourseCodes all with
  | error e => simp [findRelevantCoursesFull, hcod] at h
  | ok codes =>
    simp only [findRelevantCoursesFull, hcod] at h
    injection h with h
    refine ⟨codes, rfl, ?_, ?_⟩
    · have hfound := resolveLoop_found qs all codes
      rw [h] at hfound
      exact hfound
    · intro q _ c hmatch
      rcases hcand : candidatesFor q.2 all codes with _ | ⟨c1, _ | ⟨c2, cs⟩⟩
      · rw [hcand] at hmatch; cases hmatch
      · rw [hcand] at hmatch
        injection hmatch with hmatch
        subst hmatch
        have hcc : c1 ∈ candidatesFor q.2 all codes := by
          rw [hcand]; exact List.mem_singleton.mpr rfl
        obtain ⟨cte, hcte, hsub, _, hcode⟩ := mem_candidatesFor.mp hcc
        obtain ⟨_, hupper⟩ := allCourseCodes_entry_ne_nil hcod hcte
        exact ⟨cte, hcode, by rw [hupper]; exact hsub⟩
      · rw [hcand] at hmatch; cases hmatch

/-- Witness for claim C4 at a registry with one course and two queries, of
which only the first is matched. -/
theorem c4_matched_code_contains_query_witness :
    findRelevantCoursesFull [([84], [67, 83, 49]), ([85], [88])]
        [{ code := some [67, 83, 49], name := [], skills_curated := [] }] =
      .ok ([{ code := some [67, 83, 49], name := [], skills_curated := [] }],
        [([85], [88])]) ∧
    ∃ codes, allCourseCodes
        [{ code := some [67, 83, 49], name := [], skills_curated := [] }] =
      .ok codes ∧
      [({ code := some [67, 83, 49], name := [], skills_curated := [] } : Course)] =
        ([([84], [67, 83, 49]), ([85], [88])].filterMap fun q =>
          match candidatesFor q.2
              [{ code := some [67, 83, 49], name := [], skills_curated := [] }]
              codes with
          | [c] => some c
          | _ => none) ∧
      ∀ q ∈ ([([84], [67, 83, 49]), ([85], [88])] : List (Str × Str)), ∀ c,
        (match candidatesFor q.2
            [{ code := some [67, 83, 49], name := [], skills_curated := [] }]
            codes with
          | [c] => some c
          | _ => none) = some c →
        ∃ u, c.code = some u ∧ isSubstr q.2 (upper u) = true :=
  ⟨by decide,
   c4_matched_code_contains_query [([84], [67, 83, 49]), ([85], [88])]
     [{ code := some [67, 83, 49], name := [], skills_curated := [] }]
     [{ code := some [67, 83, 49], name := [], skills_curated := [] }]
     [([85], [88])]
     (by decide)⟩

/-- Claim C5, counterexample: a registry course whose code key is absent
makes find_relevant_courses raise KeyError at line 25 before any query is
processed, so resolve does not complete normally on such a registry. -/
theorem c5_absent_code_raises_cex :
    findRelevantCourses [] [{ code := none, name := [], skills_curated := [] }] =
      .error () ∧
    findRelevantCoursesFull [([84], [67])]
      [{ code := none, name := [], skills_curated := [] }] = .error () := by
  decide

/-- Claim C5 (amended): a registry course whose code is the empty string is
excluded from the candidate pool entirely — it is never a candidate for any
query — and on a registry whose courses all carry a code key resolve
completes normally; a course with an absent code key instead makes resolve
raise KeyError. -/
theorem c5_empty_code_excluded (all : List Course) (codes : List Str)
    (h : allCourseCodes all = .ok codes) (c : Course) (_hmem : c ∈ all)
    (hc : c.code = some []) :
    (∀ gc, c ∉ candidatesFor gc all codes) ∧
    ∀ qs, findRelevantCoursesFull qs all = .ok (resolveLoop qs all codes) := by
  refine ⟨?_, ?_⟩
  · intro gc hmemc
    obtain ⟨cte, hcte, _, _, hcode⟩ := mem_candidatesFor.mp hmemc
    rw [hc] at hcode
    injection hcode with hcode
    obtain ⟨hne, _⟩ := allCourseCodes_entry_ne_nil h hcte
    exact hne hcode.symm
  · intro qs
    simp [findRelevantCoursesFull, h]

/-- Witness for the amended claim C5: a registry holding an empty-coded
course next to a normal one. -/
theorem c5_empty_code_excluded_witness :
    allCourseCodes
        [{ code := some [], name := [], skills_curated := [] },
         { code := some [67, 83, 49], name := [], skills_curated := [] }] =
      .ok [[67, 83, 49]] ∧
    ({ code := some [], name := [], skills_curated := [] } : Course) ∉
      candidatesFor []
        [{ code := some [], name := [], skills_curated := [] },
         { code := some [67, 83, 49], name := [], skills_curated := [] }]
        [[67, 83, 49]] ∧
    findRelevantCoursesFull [([84], [])]
        [{ code := some [], name := [], skills_curated := [] },
         { code := some [67, 83, 49], name := [], skills_curated := [] }] =
      .ok (resolveLoop [([84], [])]
        [{ code := some [], name := [], skills_curated := [] },
         { code := some [67, 83, 49], name := [], skills_curated := [] }]
        [[67, 83, 49]]) :=
  ⟨by decide,
   (c5_empty_code_excluded
      [{ code := some [], name := [], skills_curated := [] },
       { code := some [67, 83, 49], name := [], skills_curated := [] }]
      [[67, 83, 49]] (by decide)
      { code := some [], name := [], skills_curated := [] }
      (by decide) rfl).1 [],
   (c5_empty_code_excluded
      [{ code := some [], name := [], skills_curated := [] },
       { code := some [67, 83, 49], name := [], skills_curated := [] }]
      [[67, 83, 49]] (by decide)
      { code := some [], name := [], skills_curated := [] }
      (by decide) rfl).2 [([84], [])]⟩

theorem lookup_upsertSkill (m : SkillMap) (cd : Str) (sk : SkillEntry) (id : Str) :
    List.lookup id (upsertSkill m cd sk) =
      if sk.skill_id = id then bump cd sk (List.lookup id m) else List.lookup id m := by
  induction m with
  | nil =>
    by_cases hid : sk.skill_id = id
    · subst hid
      simp [upsertSkill, List.lookup, bump]
    · have hb : (id == sk.skill_id) = false := beq_eq_false_iff_ne.mpr (Ne.symm hid)
      simp [upsertSkill, List.lookup, bump, hid, hb]
  | cons hd rest ih =>
    rcases hd with ⟨k, r⟩
    by_cases hks : k = sk.skill_id
    · subst hks
      by_cases hid : sk.skill_id = id
      · subst hid
        simp [upsertSkill, List.lookup, bump]
      · have hb : (id == sk.skill_id) = false := beq_eq_false_iff_ne.mpr (Ne.symm hid)
        simp [upsertSkill, List.lookup, bump, hid, hb]
    · by_cases hid : k = id
      · subst hid
        have hsk : ¬ sk.skill_id = k := fun hh => hks hh.symm
        simp [upsertSkill, List.lookup, hks, hsk]
      · have hb : (id == k) = false := beq_eq_false_iff_ne.mpr (Ne.symm hid)
        simp [upsertSkill, List.lookup, hks, hb, ih]

theorem lookup_aggF (id : Str) (l : List (Str × SkillEntry)) (m : SkillMap) :
    List.lookup id (aggF m l) =
      l.foldl (fun o p => if p.2.skill_id = id then bump p.1 p.2 o else o)
        (List.lookup id m) := by
  induction l generalizing m with
  | nil => rfl
  | cons p ps ih =>
    have h1 : aggF m (p :: ps) = aggF (upsertSkill m p.1 p.2) ps := by
      simp [aggF]
    rw [h1, ih]
    simp only [List.foldl_cons]
    congr 1
    exact lookup_upsertSkill m p.1 p.2 id

theorem bumpFold_filter (id : Str) (l : List (Str × SkillEntry)) (o : Option SkillRec) :
    l.foldl (fun o p => if p.2.skill_id = id then bump p.1 p.2 o else o) o =
      (l.filter fun p => decide (p.2.skill_id = id)).foldl
        (fun o p => bump p.1 p.2 o) o := by
  induction l generalizing o with
  | nil => rfl
  | cons p ps ih =>
    by_cases h : p.2.skill_id = id <;>
      simp [List.filter_cons, h, ih]

theorem ifGtEqMax (a b : ℚ) : (if b > a then b else a) = max a b := by
  split_ifs with h
  · exact (max_eq_right h.le).symm
  · exact (max_eq_left (not_lt.mp h)).symm

theorem bump_recOf (f : Str × SkillEntry) (pre : List (Str × SkillEntry))
    (p : Str × SkillEntry) :
    bump p.1 p.2 (some (recOf f pre)) = some (recOf f (pre ++ [p])) := by
  simp only [bump, updRec, recOf, Option.some.injEq, SkillRec.mk.injEq]
  simp [List.foldl_append, ifGtEqMax, List.map_append, List.sum_append, add_assoc,
    List.length_append]

theorem bumpFold_from_some (f : Str × SkillEntry) (rest : List (Str × SkillEntry))
    (pre : List (Str × SkillEntry)) :
    rest.foldl (fun o p => bump p.1 p.2 o) (some (recOf f pre)) =
      some (recOf f (pre ++ rest)) := by
  induction rest generalizing pre with
  | nil => simp
  | cons p ps ih =>
    simp only [List.foldl_cons, bump_recOf]
    rw [ih (pre ++ [p])]
    simp

theorem initRec_eq_recOf (f : Str × SkillEntry) : initRec f.1 f.2 = recOf f [] := by
  simp [initRec, recOf]

theorem bumpFold_from_none (l : List (Str × SkillEntry)) :
    l.foldl (fun o p => bump p.1 p.2 o) none =
      match l with
      | [] => none
      | f :: rest => some (recOf f rest) := by
  cases l with
  | nil => rfl
  | cons f rest =>
    have h1 : bump f.1 f.2 none = some (recOf f []) := by
      simp [bump, initRec_eq_recOf]
    simp only [List.foldl_cons, h1, bumpFold_from_some f rest []]
    simp

theorem occsOf_eq_filter (id : Str) (l : List Course) :
    occsOf id l =
      (l.flatMap fun c => c.skills_curated.map fun sk => (c.code.getD [], sk)).filter
        (fun p => decide (p.2.skill_id = id)) := by
  induction l with
  | nil => rfl
  | cons c cs ih =>
    simp only [occsOf, List.flatMap_cons, List.filter_append] at ih ⊢
    rw [ih, List.filter_map]
    rfl

theorem packageInner_ok (m : SkillMap) (c : Course) (cd : Str) (h : c.code = some cd)
    (sks : List SkillEntry) :
    packageInner m c sks = .ok (aggF m (sks.map fun sk => (cd, sk))) := by
  induction sks generalizing m with
  | nil => rfl
  | cons sk sks ih =>
    simp only [packageInner, packageOne, h, List.map_cons]
    rw [ih (upsertSkill m cd sk)]
    simp [aggF]

theorem packageGo_ok (l : List Course) (h : ∀ c ∈ l, c.code ≠ none) (m : SkillMap) :
    packageGo m l =
      .ok (aggF m (l.flatMap fun c => c.skills_curated.map fun sk =>
        (c.code.getD [], sk))) := by
  induction l generalizing m with
  | nil => simp [packageGo, aggF]
  | cons c cs ih =>
    obtain ⟨cd, hcd⟩ := Option.ne_none_iff_exists'.mp (h c (List.mem_cons_self _ _))
    have hinner := packageInner_ok m c cd hcd c.skills_curated
    simp only [packageGo, hinner]
    rw [ih (fun d hd => h d (List.mem_cons_of_mem _ hd))]
    simp [aggF, hcd, List.foldl_append]

theorem packageSkills_ok (l : List Course) (h : ∀ c ∈ l, c.code ≠ none) :
    packageSkills l =
      .ok (aggF [] (l.flatMap fun c => c.skills_curated.map fun sk =>
        (c.code.getD [], sk))) :=
  packageGo_ok l h []

/-- Claim C3: package_skills upserts each curated skill keyed by skill_id —
the record stored under any id is exactly determined by that id's occurrence
list (course code, entry) in processing order: metadata from the first
occurrence, count = number of occurrences, max and sum over all levels,
courses = the (code, level) pairs in order. -/
theorem c3_aggregation_characterization (l : List Course)
    (h : ∀ c ∈ l, c.code ≠ none) :
    ∃ m, packageSkills l = .ok m ∧
      ∀ id, List.lookup id m =
        match occsOf id l with
        | [] => none
        | f :: rest => some (recOf f rest) := by
  refine ⟨_, packageSkills_ok l h, ?_⟩
  intro id
  rw [lookup_aggF, bumpFold_filter, ← occsOf_eq_filter]
  exact bumpFold_from_none (occsOf id l)

/-- Witness for claim C3 at the Scenario D input: two courses both teaching
the same skill with levels 3 and 5. -/
theorem c3_aggregation_characterization_witness :
    (∀ c ∈
      [{ code := some [67], name := [],
         skills_curated :=
           [{ skill_id := [115], skill := [87], skill_category := [75],
              frequency := 7, skill_level := 3 }] },
       ({ code := some [68], name := [],
          skills_curated :=
            [{ skill_id := [115], skill := [87], skill_category := [75],
               frequency := 7, skill_level := 5 }] } : Course)],
      c.code ≠ none) ∧
    ∃ m, packageSkills
        [{ code := some [67], name := [],
           skills_curated :=
             [{ skill_id := [115], skill := [87], skill_category := [75],
                frequency := 7, skill_level := 3 }] },
         { code := some [68], name := [],
           skills_curated :=
             [{ skill_id := [115], skill := [87], skill_category := [75],
                frequency := 7, skill_level := 5 }] }] = .ok m ∧
      ∀ id, List.lookup id m =
        match occsOf id
            [{ code := some [67], name := [],
               skills_curated :=
                 [{ skill_id := [115], skill := [87], skill_category := [75],
                    frequency := 7, skill_level := 3 }] },
             { code := some [68], name := [],
               skills_curated :=
                 [{ skill_id := [115], skill := [87], skill_category := [75],
                    frequency := 7, skill_level := 5 }] }] with
        | [] => none
        | f :: rest => some (recOf f rest) :=
  ⟨by decide,
   c3_aggregation_characterization
     [{ code := some [67], name := [],
        skills_curated :=
          [{ skill_id := [115], skill := [87], skill_category := [75],
             frequency := 7, skill_level := 3 }] },
      { code := some [68], name := [],
        skills_curated :=
          [{ skill_id := [115], skill := [87], skill_category := [75],
             frequency := 7, skill_level := 5 }] }]
     (by decide)⟩

theorem upsert_count_inv (m : SkillMap) (cd : Str) (sk : SkillEntry)
    (h : ∀ p ∈ m, p.2.count = p.2.courses.length ∧ 1 ≤ p.2.count) :
    ∀ p ∈ upsertSkill m cd sk, p.2.count = p.2.courses.length ∧ 1 ≤ p.2.count := by
  induction m with
  | nil =>
    intro p hp
    simp only [upsertSkill, List.mem_singleton] at hp
    subst hp
    simp [initRec]
  | cons hd rest ih =>
    rcases hd with ⟨k, r⟩
    intro p hp
    by_cases hks : k = sk.skill_id
    · simp only [upsertSkill, if_pos hks] at hp
      rcases List.mem_cons.mp hp with h1 | h1
      · subst h1
        obtain ⟨hc, hl⟩ := h (k, r) (List.mem_cons_self _ _)
        dsimp only at hc hl ⊢
        simp [updRec, hc]
      · exact h p (List.mem_cons_of_mem _ h1)
    · simp only [upsertSkill, if_neg hks] at hp
      rcases List.mem_cons.mp hp with h1 | h1
      · subst h1
        exact h (k, r) (List.mem_cons_self _ _)
      · exact ih (fun q hq => h q (List.mem_cons_of_mem _ hq)) p h1

theorem packageInner_inv (c : Course) (sks : List SkillEntry) :
    ∀ m m2 : SkillMap, (∀ p ∈ m, p.2.count = p.2.courses.length ∧ 1 ≤ p.2.count) →
      packageInner m c sks = .ok m2 →
      ∀ p ∈ m2, p.2.count = p.2.courses.length ∧ 1 ≤ p.2.count := by
  induction sks with
  | nil =>
    intro m m2 hm h
    injection h with h
    subst h
    exact hm
  | cons sk sks ih =>
    intro m m2 hm h
    cases hcd : c.code with
    | none => simp [packageInner, packageOne, hcd] at h
    | some cd =>
      simp only [packageInner, packageOne, hcd] at h
      exact ih _ m2 (upsert_count_inv m cd sk hm) h

theorem packageGo_inv (l : List Course) :
    ∀ m m2 : SkillMap, (∀ p ∈ m, p.2.count = p.2.courses.length ∧ 1 ≤ p.2.count) →
      packageGo m l = .ok m2 →
      ∀ p ∈ m2, p.2.count = p.2.courses.length ∧ 1 ≤ p.2.count := by
  induction l with
  | nil =>
    intro m m2 hm h
    injection h with h
    subst h
    exact hm
  | cons c cs ih =>
    intro m m2 hm h
    cases hInner : packageInner m c c.skills_curated with
    | error e => simp [packageGo, hInner] at h
    | ok m3 =>
      simp only [packageGo, hInner] at h
      exact ih m3 m2 (packageInner_inv c c.skills_curated m m3 hm hInner) h

/-- Claim C6: in any map produced by package_skills, every record satisfies
count = len(courses), and every record has count at least 1 (no record with
count 0 ever exists). -/
theorem c6_count_eq_courses_length (l : List Course) (m : SkillMap)
    (h : packageSkills l = .ok m) :
    ∀ p ∈ m, p.2.count = p.2.courses.length ∧ 1 ≤ p.2.count :=
  packageGo_inv l [] m (by simp) h

/-- Witness for claim C6 at a one-course, one-skill input. -/
theorem c6_count_eq_courses_length_witness :
    packageSkills
        [{ code := some [67], name := [],
           skills_curated :=
             [{ skill_id := [115], skill := [87], skill_category := [75],
                frequency := 7, skill_level := 3 }] }] =
      .ok [([115],
        { name := [87], category := [75], frequency := 7, count := 1,
          max_skill_level := 3, sum_skill_level := 3,
          courses := [([67], 3)], skill_level_average := none })] ∧
    ∀ p ∈ [(([115] : Str),
        ({ name := [87], category := [75], frequency := 7, count := 1,
           max_skill_level := 3, sum_skill_level := 3,
           courses := [([67], 3)], skill_level_average := none } : SkillRec))],
      p.2.count = p.2.courses.length ∧ 1 ≤ p.2.count :=
  ⟨rfl,
   c6_count_eq_courses_length
     [{ code := some [67], name := [],
        skills_curated :=
          [{ skill_id := [115], skill := [87], skill_category := [75],
             frequency := 7, skill_level := 3 }] }]
     [([115],
       { name := [87], category := [75], frequency := 7, count := 1,
         max_skill_level := 3, sum_skill_level := 3,
         courses := [([67], 3)], skill_level_average := none })]
     rfl⟩

theorem find_congr {β : Type} (p q : β → Bool) (l : List β)
    (h : ∀ a ∈ l, p a = q a) : l.find? p = l.find? q := by
  induction l with
  | nil => rfl
  | cons x xs ih =>
    have hx := h x (List.mem_cons_self _ _)
    by_cases hp : p x = true
    · rw [List.find?_cons_of_pos _ hp, List.find?_cons_of_pos _ (hx ▸ hp)]
    · rw [List.find?_cons_of_neg _ hp,
        List.find?_cons_of_neg _ (fun hh => hp (by rw [hx]; exact hh))]
      exact ih fun a ha => h a (List.mem_cons_of_mem _ ha)

theorem exists_max_elem {α β : Type} [LinearOrder α] (f : β → α) (l : List β)
    (h : l ≠ []) : ∃ p ∈ l, ∀ q ∈ l, f q ≤ f p := by
  induction l with
  | nil => exact absurd rfl h
  | cons x xs ih =>
    rcases eq_or_ne xs [] with hxs | hxs
    · subst hxs
      refine ⟨x, List.mem_singleton.mpr rfl, ?_⟩
      intro q hq
      rw [List.mem_singleton.mp hq]
    · obtain ⟨p, hp, hmax⟩ := ih hxs
      rcases le_total (f x) (f p) with hle | hle
      · refine ⟨p, List.mem_cons_of_mem _ hp, ?_⟩
        intro q hq
        rcases List.mem_cons.mp hq with rfl | hq2
        · exact hle
        · exact hmax q hq2
      · refine ⟨x, List.mem_cons_self _ _, ?_⟩
        intro q hq
        rcases List.mem_cons.mp hq with rfl | hq2
        · exact le_refl _
        · exact le_trans (hmax q hq2) hle

theorem foldBest_eq {α β γ : Type} [LinearOrder α] (f : β → α) (key : β → γ)
    (l : List β) (s₀ : Option γ) (v₀ : α) :
    foldBest f key s₀ v₀ l =
      match l.find? (fun p => decide (v₀ < f p) && l.all fun q => decide (f q ≤ f p)) with
      | some w => (some (key w), f w)
      | none => (s₀, v₀) := by
  induction l generalizing s₀ v₀ with
  | nil => simp [foldBest]
  | cons x xs ih =>
    by_cases hvx : v₀ < f x
    · by_cases hall : ∀ q ∈ xs, f q ≤ f x
      · have hcons : ∀ q ∈ x :: xs, f q ≤ f x := by
          intro q hq
          rcases List.mem_cons.mp hq with rfl | hq2
          · exact le_refl _
          · exact hall q hq2
        have hpx : (decide (v₀ < f x) &&
            (x :: xs).all fun q => decide (f q ≤ f x)) = true := by
          rw [Bool.and_eq_true]
          refine ⟨decide_eq_true hvx, ?_⟩
          rw [List.all_eq_true]
          intro q hq
          exact decide_eq_true (hcons q hq)
        simp only [List.find?_cons, hpx]
        simp only [foldBest]
        rw [if_pos hvx, ih]
        have hnone : xs.find? (fun p => decide (f x < f p) &&
            xs.all fun q => decide (f q ≤ f p)) = none := by
          rw [List.find?_eq_none]
          intro p hp
          simp only [Bool.and_eq_true, decide_eq_true_eq, not_and]
          intro h1 _
          exact absurd h1 (not_lt.mpr (hall p hp))
        rw [hnone]
      · push_neg at hall
        obtain ⟨qq, hqq, hgt⟩ := hall
        have hpxf : (decide (v₀ < f x) &&
            (x :: xs).all fun q => decide (f q ≤ f x)) = false := by
          rw [Bool.and_eq_false_iff]
          right
          rw [List.all_eq_false]
          refine ⟨qq, List.mem_cons_of_mem _ hqq, ?_⟩
          simp [not_le.mpr hgt]
        simp only [List.find?_cons, hpxf]
        simp only [foldBest]
        rw [if_pos hvx, ih]
        have hcongr : xs.find? (fun p => decide (f x < f p) &&
            xs.all fun q => decide (f q ≤ f p)) =
          xs.find? (fun p => decide (v₀ < f p) &&
            (x :: xs).all fun q => decide (f q ≤ f p)) := by
          apply find_congr
          intro p _
          by_cases hall2 : (xs.all fun q => decide (f q ≤ f p)) = true
          · have hq : f qq ≤ f p :=
              decide_eq_true_eq.mp (List.all_eq_true.mp hall2 qq hqq)
            have h1 : f x < f p := lt_of_lt_of_le hgt hq
            have h2 : v₀ < f p := lt_trans hvx h1
            simp [hall2, h1, h2, le_of_lt h1, List.all_cons]
          · simp [List.all_cons, hall2]
        rw [hcongr]
        have hne : xs ≠ [] := List.ne_nil_of_mem hqq
        obtain ⟨pm, hpm, hmax⟩ := exists_max_elem f xs hne
        have hpred : (decide (v₀ < f pm) &&
            (x :: xs).all fun q => decide (f q ≤ f pm)) = true := by
          have h1 : f x < f pm := lt_of_lt_of_le hgt (hmax qq hqq)
          rw [Bool.and_eq_true]
          refine ⟨decide_eq_true (lt_trans hvx h1), ?_⟩
          rw [List.all_eq_true]
          intro q hq
          rcases List.mem_cons.mp hq with rfl | hq2
          · exact decide_eq_true (le_of_lt h1)
          · exact decide_eq_true (hmax q hq2)
        cases hfind : xs.find? (fun p => decide (v₀ < f p) &&
            (x :: xs).all fun q => decide (f q ≤ f p)) with
        | none =>
          rw [List.find?_eq_none] at hfind
          exact absurd hpred (hfind pm hpm)
        | some w => simp [hfind]
    · have hpxf : (decide (v₀ < f x) &&
          (x :: xs).all fun q => decide (f q ≤ f x)) = false := by
        rw [Bool.and_eq_false_iff]
        left
        simp [hvx]
      simp only [List.find?_cons, hpxf]
      simp only [foldBest]
      rw [if_neg hvx, ih]
      have hcongr : xs.find? (fun p => decide (v₀ < f p) &&
          xs.all fun q => decide (f q ≤ f p)) =
        xs.find? (fun p => decide (v₀ < f p) &&
          (x :: xs).all fun q => decide (f q ≤ f p)) := by
        apply find_congr
        intro p _
        by_cases hv : v₀ < f p
        · have hxp : f x ≤ f p := le_trans (not_lt.mp hvx) (le_of_lt hv)
          simp [List.all_cons, hv, hxp]
        · simp [hv]
      rw [hcongr]

theorem selStep_ok (acc : SelAcc) (p : Str × SkillRec) (h : p.2.courses ≠ []) :
    selStep acc p = .ok (selStepT acc p) := by
  have hlen : ¬ p.2.courses.length = 0 := by simp [List.length_eq_zero, h]
  simp only [selStep, selStepT, setAvgEntry, avgOf]
  rw [if_neg hlen]

theorem selGo_ok (l : SkillMap) (h : ∀ p ∈ l, p.2.courses ≠ []) (acc : SelAcc) :
    selGo acc l = .ok (selGoT acc l) := by
  induction l generalizing acc with
  | nil => rfl
  | cons p ps ih =>
    simp only [selGo, selStep_ok acc p (h p (List.mem_cons_self _ _)), selGoT]
    exact ih (fun q hq => h q (List.mem_cons_of_mem _ hq)) _

theorem selGoT_processed (l : SkillMap) (acc : SelAcc) :
    (selGoT acc l).processed = acc.processed ++ l.map setAvgEntry := by
  induction l generalizing acc with
  | nil => simp [selGoT]
  | cons p ps ih =>
    simp only [selGoT]
    rw [ih]
    simp [selStepT]

theorem selGoT_count (l : SkillMap) (acc : SelAcc) :
    ((selGoT acc l).max_count_skill, (selGoT acc l).max_count) =
      foldBest (fun p : Str × SkillRec => p.2.count) (fun p => p.1)
        acc.max_count_skill acc.max_count l := by
  induction l generalizing acc with
  | nil => simp [selGoT, foldBest]
  | cons p ps ih =>
    simp only [selGoT, foldBest]
    by_cases hc : acc.max_count < p.2.count
    · rw [if_pos hc, ih]
      simp [selStepT, hc]
    · rw [if_neg hc, ih]
      simp [selStepT, hc]

theorem selGoT_avg (l : SkillMap) (acc : SelAcc) :
    ((selGoT acc l).max_level_skill, (selGoT acc l).max_average_level) =
      foldBest (fun p : Str × SkillRec => avgOf p.2) (fun p => p.1)
        acc.max_level_skill acc.max_average_level l := by
  induction l generalizing acc with
  | nil => simp [selGoT, foldBest]
  | cons p ps ih =>
    simp only [selGoT, foldBest]
    by_cases hc : acc.max_average_level < avgOf p.2
    · rw [if_pos hc, ih]
      simp [selStepT, hc]
    · rw [if_neg hc, ih]
      simp [selStepT, hc]

theorem selGoT_freq (l : SkillMap) (acc : SelAcc) :
    ((selGoT acc l).unique_skill,
      OrderDual.toDual ((selGoT acc l).unique_skill_frequency)) =
      foldBest (fun p : Str × SkillRec => OrderDual.toDual ((p.2.frequency : WithTop ℚ)))
        (fun p => p.1) acc.unique_skill
        (OrderDual.toDual acc.unique_skill_frequency) l := by
  induction l generalizing acc with
  | nil => simp [selGoT, foldBest]
  | cons p ps ih =>
    simp only [selGoT, foldBest]
    by_cases hc : (p.2.frequency : WithTop ℚ) < acc.unique_skill_frequency
    · rw [if_pos (OrderDual.toDual_lt_toDual.mpr hc), ih]
      simp [selStepT, hc]
    · rw [if_neg (fun hh => hc (OrderDual.toDual_lt_toDual.mp hh)), ih]
      simp [selStepT, hc]

theorem selGoT_count_spec (m : SkillMap) (hpos : ∀ p ∈ m, 0 < p.2.count) :
    (selGoT selInit m).max_count_skill = firstMaxCount m := by
  have h1 := selGoT_count m selInit
  simp only [selInit] at h1
  simp only [foldBest_eq] at h1
  have h3 : m.find? (fun p => decide (0 < p.2.count) &&
      m.all fun q => decide (q.2.count ≤ p.2.count)) =
    m.find? (fun p => m.all fun q => decide (q.2.count ≤ p.2.count)) := by
    apply find_congr
    intro p hp
    simp [hpos p hp]
  rw [h3] at h1
  unfold firstMaxCount
  cases hf : m.find? (fun p => m.all fun q => decide (q.2.count ≤ p.2.count)) with
  | none =>
    rw [hf] at h1
    simpa using congrArg Prod.fst h1
  | some w =>
    rw [hf] at h1
    simpa using congrArg Prod.fst h1

theorem selGoT_avg_spec (m : SkillMap) (hpos : ∀ p ∈ m, 0 < avgOf p.2) :
    (selGoT selInit m).max_level_skill = firstMaxAvg m := by
  have h1 := selGoT_avg m selInit
  simp only [selInit] at h1
  simp only [foldBest_eq] at h1
  have h3 : m.find? (fun p => decide ((0 : ℚ) < avgOf p.2) &&
      m.all fun q => decide (avgOf q.2 ≤ avgOf p.2)) =
    m.find? (fun p => m.all fun q => decide (avgOf q.2 ≤ avgOf p.2)) := by
    apply find_congr
    intro p hp
    simp [hpos p hp]
  rw [h3] at h1
  unfold firstMaxAvg
  cases hf : m.find? (fun p => m.all fun q => decide (avgOf q.2 ≤ avgOf p.2)) with
  | none =>
    rw [hf] at h1
    simpa using congrArg Prod.fst h1
  | some w =>
    rw [hf] at h1
    simpa using congrArg Prod.fst h1

theorem selGoT_freq_spec (m : SkillMap) :
    (selGoT selInit m).unique_skill = firstMinFreq m := by
  have h1 := selGoT_freq m selInit
  simp only [selInit] at h1
  simp only [foldBest_eq] at h1
  have h3 : m.find? (fun p =>
      decide (OrderDual.toDual (⊤ : WithTop ℚ) <
        OrderDual.toDual ((p.2.frequency : WithTop ℚ))) &&
      m.all fun q => decide (OrderDual.toDual ((q.2.frequency : WithTop ℚ)) ≤
        OrderDual.toDual ((p.2.frequency : WithTop ℚ)))) =
    m.find? (fun p => m.all fun q => decide (p.2.frequency ≤ q.2.frequency)) := by
    apply find_congr
    intro p _
    have hlt : OrderDual.toDual (⊤ : WithTop ℚ) <
        OrderDual.toDual ((p.2.frequency : WithTop ℚ)) := by
      rw [OrderDual.toDual_lt_toDual]
      exact WithTop.coe_lt_top _
    simp only [hlt, decide_eq_true_eq, decide_True, Bool.true_and]
    congr 1
    funext q
    rw [decide_eq_decide, OrderDual.toDual_le_toDual, WithTop.coe_le_coe]
  rw [h3] at h1
  unfold firstMinFreq
  cases hf : m.find? (fun p => m.all fun q => decide (p.2.frequency ≤ q.2.frequency)) with
  | none =>
    rw [hf] at h1
    simpa using congrArg Prod.fst h1
  | some w =>
    rw [hf] at h1
    simpa using congrArg Prod.fst h1

/-- Claim C7: on a non-empty map whose records have positive count and
positive levels (so positive sum of levels and a non-empty courses list),
get_skills_of_interest returns the first-encountered skill of strictly
greatest count, the first-encountered skill of strictly greatest average
level, and the first-encountered skill of strictly smallest frequency
(initial threshold positive infinity), ties keeping the earlier entry. -/
theorem c7_selection_first_superlatives (m : SkillMap) (_hne : m ≠ [])
    (hpos : ∀ p ∈ m, 0 < p.2.count ∧ p.2.courses ≠ [] ∧ 0 < p.2.sum_skill_level) :
    getSkillsOfInterest m =
      .ok (m.map setAvgEntry, (firstMaxCount m, firstMaxAvg m, firstMinFreq m)) := by
  have hok : selGo selInit m = .ok (selGoT selInit m) :=
    selGo_ok m (fun p hp => (hpos p hp).2.1) selInit
  have havg : ∀ p ∈ m, 0 < avgOf p.2 := by
    intro p hp
    obtain ⟨h1, h2, h3⟩ := hpos p hp
    have hl : (0 : ℚ) < (p.2.courses.length : ℚ) := by
      exact_mod_cast List.length_pos.mpr h2
    exact div_pos h3 hl
  simp only [getSkillsOfInterest, hok]
  rw [selGoT_processed, selGoT_count_spec m (fun p hp => (hpos p hp).1),
    selGoT_avg_spec m havg, selGoT_freq_spec m]
  simp [selInit]

/-- Witness for claim C7 at a concrete two-skill map: the first skill has the
larger count and sum, the second the smaller frequency. -/
theorem c7_selection_first_superlatives_witness :
    ([(([97] : Str),
        ({ name := [87], category := [75], frequency := 7, count := 2,
           max_skill_level := 5, sum_skill_level := 8,
           courses := [([67], 3), ([68], 5)],
           skill_level_average := none } : SkillRec)),
      ([98],
        { name := [88], category := [75], frequency := 2, count := 1,
          max_skill_level := 9, sum_skill_level := 9,
          courses := [([69], 9)], skill_level_average := none })] : SkillMap) ≠ [] ∧
    getSkillsOfInterest
      [(([97] : Str),
        ({ name := [87], category := [75], frequency := 7, count := 2,
           max_skill_level := 5, sum_skill_level := 8,
           courses := [([67], 3), ([68], 5)],
           skill_level_average := none } : SkillRec)),
       ([98],
        { name := [88], category := [75], frequency := 2, count := 1,
          max_skill_level := 9, sum_skill_level := 9,
          courses := [([69], 9)], skill_level_average := none })] =
      .ok ([(([97] : Str),
          ({ name := [87], category := [75], frequency := 7, count := 2,
             max_skill_level := 5, sum_skill_level := 8,
             courses := [([67], 3), ([68], 5)],
             skill_level_average := none } : SkillRec)),
         ([98],
          { name := [88], category := [75], frequency := 2, count := 1,
            max_skill_level := 9, sum_skill_level := 9,
            courses := [([69], 9)], skill_level_average := none })].map setAvgEntry,
        (firstMaxCount
          [(([97] : Str),
            ({ name := [87], category := [75], frequency := 7, count := 2,
               max_skill_level := 5, sum_skill_level := 8,
               courses := [([67], 3), ([68], 5)],
               skill_level_average := none } : SkillRec)),
           ([98],
            { name := [88], category := [75], frequency := 2, count := 1,
              max_skill_level := 9, sum_skill_level := 9,
              courses := [([69], 9)], skill_level_average := none })],
         firstMaxAvg
          [(([97] : Str),
            ({ name := [87], category := [75], frequency := 7, count := 2,
               max_skill_level := 5, sum_skill_level := 8,
               courses := [([67], 3), ([68], 5)],
               skill_level_average := none } : SkillRec)),
           ([98],
            { name := [88], category := [75], frequency := 2, count := 1,
              max_skill_level := 9, sum_skill_level := 9,
              courses := [([69], 9)], skill_level_average := none })],
         firstMinFreq
          [(([97] : Str),
            ({ name := [87], category := [75], frequency := 7, count := 2,
               max_skill_level := 5, sum_skill_level := 8,
               courses := [([67], 3), ([68], 5)],
               skill_level_average := none } : SkillRec)),
           ([98],
            { name := [88], category := [75], frequency := 2, count := 1,
              max_skill_level := 9, sum_skill_level := 9,
              courses := [([69], 9)], skill_level_average := none })])) :=
  ⟨List.cons_ne_nil _ _,
   c7_selection_first_superlatives
     [(([97] : Str),
       ({ name := [87], category := [75], frequency := 7, count := 2,
          max_skill_level := 5, sum_skill_level := 8,
          courses := [([67], 3), ([68], 5)],
          skill_level_average := none } : SkillRec)),
      ([98],
       { name := [88], category := [75], frequency := 2, count := 1,
         max_skill_level := 9, sum_skill_level := 9,
         courses := [([69], 9)], skill_level_average := none })]
     (List.cons_ne_nil _ _) (by decide)⟩

/-- Claim C8: on a map whose records satisfy count at least 1 and
count = len(courses), get_skills_of_interest succeeds (no division by zero),
stores skill_level_average = sum_skill_level / count on every record, and
changes nothing else about the map: keys, order and all other fields are
unchanged. -/
theorem c8_average_level_frame (m : SkillMap)
    (h : ∀ p ∈ m, 1 ≤ p.2.count ∧ p.2.count = p.2.courses.length) :
    ∃ sel, getSkillsOfInterest m =
      .ok (m.map fun p =>
        (p.1, { p.2 with skill_level_average := some (p.2.sum_skill_level / (p.2.count : ℚ)) }),
        sel) := by
  have hcne : ∀ p ∈ m, p.2.courses ≠ [] := by
    intro p hp
    obtain ⟨h1, h2⟩ := h p hp
    intro hnil
    rw [hnil] at h2
    simp at h2
    omega
  have hok : selGo selInit m = .ok (selGoT selInit m) := selGo_ok m hcne selInit
  refine ⟨((selGoT selInit m).max_count_skill, (selGoT selInit m).max_level_skill,
    (selGoT selInit m).unique_skill), ?_⟩
  simp only [getSkillsOfInterest, hok]
  have hmap : m.map setAvgEntry = m.map (fun p =>
      (p.1, { p.2 with skill_level_average := some (p.2.sum_skill_level / (p.2.count : ℚ)) })) := by
    apply List.map_congr_left
    intro p hp
    obtain ⟨h1, h2⟩ := h p hp
    simp [setAvgEntry, avgOf, h2]
  rw [selGoT_processed, hmap]
  simp [selInit]

/-- Witness for claim C8 at a concrete two-skill map. -/
theorem c8_average_level_frame_witness :
    (∀ p ∈ ([(([97] : Str),
        ({ name := [87], category := [75], frequency := 7, count := 2,
           max_skill_level := 5, sum_skill_level := 8,
           courses := [([67], 3), ([68], 5)],
           skill_level_average := none } : SkillRec)),
       ([98],
        { name := [88], category := [75], frequency := 2, count := 1,
          max_skill_level := 9, sum_skill_level := 9,
          courses := [([69], 9)], skill_level_average := none })] : SkillMap),
      1 ≤ p.2.count ∧ p.2.count = p.2.courses.length) ∧
    ∃ sel, getSkillsOfInterest
      [(([97] : Str),
        ({ name := [87], category := [75], frequency := 7, count := 2,
           max_skill_level := 5, sum_skill_level := 8,
           courses := [([67], 3), ([68], 5)],
           skill_level_average := none } : SkillRec)),
       ([98],
        { name := [88], category := [75], frequency := 2, count := 1,
          max_skill_level := 9, sum_skill_level := 9,
          courses := [([69], 9)], skill_level_average := none })] =
      .ok ([(([97] : Str),
          ({ name := [87], category := [75], frequency := 7, count := 2,
             max_skill_level := 5, sum_skill_level := 8,
             courses := [([67], 3), ([68], 5)],
             skill_level_average := none } : SkillRec)),
         ([98],
          { name := [88], category := [75], frequency := 2, count := 1,
            max_skill_level := 9, sum_skill_level := 9,
            courses := [([69], 9)], skill_level_average := none })].map fun p =>
          (p.1, { p.2 with skill_level_average := some (p.2.sum_skill_level / (p.2.count : ℚ)) }),
        sel) :=
  ⟨by decide,
   c8_average_level_frame
     [(([97] : Str),
       ({ name := [87], category := [75], frequency := 7, count := 2,
          max_skill_level := 5, sum_skill_level := 8,
          courses := [([67], 3), ([68], 5)],
          skill_level_average := none } : SkillRec)),
      ([98],
       { name := [88], category := [75], frequency := 2, count := 1,
         max_skill_level := 9, sum_skill_level := 9,
         courses := [([69], 9)], skill_level_average := none })]
     (by decide)⟩

/-- Claim C9: on the empty skill map, get_skills_of_interest does not fail
and returns None for all three selected skills (and leaves the map empty). -/
theorem c9_empty_map_selection :
    getSkillsOfInterest [] = .ok ([], (none, none, none)) := rfl

theorem candidatesFor_nil_code (all : List Course) (codes : List Str) :
    candidatesFor [] all codes =
      codes.flatMap fun cte => all.filter fun c => decide (c.code = some cte) := by
  simp [candidatesFor, isSubstr_nil_left]

theorem flatMap_congr {α β : Type} (f g : α → List β) (l : List α)
    (h : ∀ a ∈ l, f a = g a) : l.flatMap f = l.flatMap g := by
  induction l with
  | nil => rfl
  | cons a l ih =>
    simp only [List.flatMap_cons]
    rw [h a (List.mem_cons_self _ _), ih fun b hb => h b (List.mem_cons_of_mem _ hb)]

theorem filterLen_le_candidates (all : List Course) :
    ∀ ds codes2, (∀ d ∈ ds, d ∈ all) → allCourseCodes ds = .ok codes2 →
      (ds.filter isUpperCoded).length ≤
        (codes2.flatMap fun cte => all.filter fun c => decide (c.code = some cte)).length := by
  intro ds
  induction ds with
  | nil =>
    intro codes2 _ h
    injection h with h
    subst h
    simp
  | cons d dss ih =>
    intro codes2 hsub h
    cases hd : d.code with
    | none => simp [allCourseCodes, hd] at h
    | some cd =>
      cases hr : allCourseCodes dss with
      | error e => simp [allCourseCodes, hd, hr] at h
      | ok rest =>
        simp only [allCourseCodes, hd, hr] at h
        by_cases hcd : cd = []
        · rw [if_pos hcd] at h
          injection h with h
          subst h
          have hft : ¬ isUpperCoded d = true := by simp [isUpperCoded, hd, hcd]
          rw [List.filter_cons_of_neg hft]
          exact ih rest (fun q hq => hsub q (List.mem_cons_of_mem _ hq)) hr
        · rw [if_neg hcd] at h
          injection h with h
          subst h
          simp only [List.flatMap_cons, List.length_append]
          by_cases hup : isUpperCoded d = true
          · have hdu : upper cd = cd := by
              simp only [isUpperCoded, hd, decide_eq_true_eq] at hup
              exact hup.2
            have hdin : d ∈ all.filter fun c => decide (c.code = some (upper cd)) := by
              rw [List.mem_filter]
              refine ⟨hsub d (List.mem_cons_self _ _), ?_⟩
              rw [hdu]
              simp [hd]
            have h1 : 1 ≤ (all.filter fun c => decide (c.code = some (upper cd))).length :=
              List.length_pos.mpr (List.ne_nil_of_mem hdin)
            have h2 := ih rest (fun q hq => hsub q (List.mem_cons_of_mem _ hq)) hr
            rw [List.filter_cons_of_pos hup]
            simp only [List.length_cons]
            omega
          · rw [List.filter_cons_of_neg hup]
            have h2 := ih rest (fun q hq => hsub q (List.mem_cons_of_mem _ hq)) hr
            omega

theorem count_allCourseCodes :
    ∀ (all : List Course) codes, allCourseCodes all = .ok codes →
      ∀ u, codes.count u = (all.filter (hasUpperCode u)).length := by
  intro all
  induction all with
  | nil =>
    intro codes h u
    injection h with h
    subst h
    simp
  | cons c cs ih =>
    intro codes h u
    cases hd : c.code with
    | none => simp [allCourseCodes, hd] at h
    | some cd =>
      cases hr : allCourseCodes cs with
      | error e => simp [allCourseCodes, hd, hr] at h
      | ok rest =>
        simp only [allCourseCodes, hd, hr] at h
        by_cases hcd : cd = []
        · rw [if_pos hcd] at h
          injection h with h
          subst h
          have hfc : ¬ hasUpperCode u c = true := by simp [hasUpperCode, hd, hcd]
          rw [List.filter_cons_of_neg hfc]
          exact ih rest hr u
        · rw [if_neg hcd] at h
          injection h with h
          subst h
          by_cases hqu : upper cd = u
          · have hfc : hasUpperCode u c = true := by
              simp [hasUpperCode, hd, hcd, hqu]
            have hbeq : (upper cd == u) = true := beq_iff_eq.mpr hqu
            rw [List.filter_cons_of_pos hfc]
            simp [List.count_cons, hbeq, ih rest hr u]
          · have hfc : ¬ hasUpperCode u c = true := by
              simp [hasUpperCode, hd, hcd, hqu]
            have hbeq : (upper cd == u) = false := beq_eq_false_iff_ne.mpr hqu
            rw [List.filter_cons_of_neg hfc]
            simp [List.count_cons, hbeq, ih rest hr u]

theorem flatMap_single_count {x : Course} (u : Str) :
    ∀ codes : List Str, codes.count u = 1 →
      (codes.flatMap fun cte => if cte = u then [x] else []) = [x] := by
  intro codes
  induction codes with
  | nil => intro h; simp at h
  | cons c cs ih =>
    intro h
    by_cases hc : c = u
    · subst hc
      rw [List.count_cons_self] at h
      have h0 : cs.count c = 0 := by omega
      have hnotin : c ∉ cs := List.count_eq_zero.mp h0
      have hnil : (cs.flatMap fun cte => if cte = c then [x] else []) = [] := by
        rw [List.flatMap_eq_nil_iff]
        intro cte hcte
        rw [if_neg]
        intro heq
        exact hnotin (heq ▸ hcte)
      simp [List.flatMap_cons, hnil]
    · have hbeq : (c == u) = false := beq_eq_false_iff_ne.mpr hc
      rw [List.count_cons, hbeq] at h
      simp at h
      simp only [List.flatMap_cons, if_neg hc, List.nil_append]
      exact ih h

theorem candidates_single (all : List Course) (codes : List Str)
    (h : allCourseCodes all = .ok codes) (x : Course) (u : Str)
    (hx : x.code = some u) (hup : all.filter isUpperCoded = [x])
    (hu : all.filter (hasUpperCode u) = [x]) :
    candidatesFor [] all codes = [x] := by
  have hxmem : x ∈ all.filter isUpperCoded := by
    rw [hup]
    exact List.mem_singleton.mpr rfl
  obtain ⟨hxall, hxup⟩ := List.mem_filter.mp hxmem
  have hxu : u ≠ [] ∧ upper u = u := by
    simp only [isUpperCoded, hx, decide_eq_true_eq] at hxup
    exact hxup
  have hfilter : ∀ cte ∈ codes, (all.filter fun c => decide (c.code = some cte)) =
      if cte = u then [x] else [] := by
    intro cte hcte
    obtain ⟨hcne, hcup⟩ := allCourseCodes_entry_ne_nil h hcte
    have himp : ∀ c ∈ all, decide (c.code = some cte) = true → isUpperCoded c = true := by
      intro c _ hcc
      have hcode : c.code = some cte := of_decide_eq_true hcc
      simp [isUpperCoded, hcode, hcne, hcup]
    have hsub2 : all.filter (fun c => decide (c.code = some cte)) =
        (all.filter isUpperCoded).filter fun c => decide (c.code = some cte) := by
      rw [List.filter_filter]
      apply List.filter_congr
      intro c hc
      cases hpc : decide (c.code = some cte) with
      | false => simp
      | true => simp [himp c hc hpc]
    rw [hsub2, hup]
    by_cases hcu : cte = u
    · subst hcu
      simp [List.filter_cons, hx]
    · simp [List.filter_cons, hx, hcu, Ne.symm hcu]
  have hcnt : codes.count u = 1 := by
    rw [count_allCourseCodes all codes h u, hu]
    rfl
  rw [candidatesFor_nil_code]
  rw [flatMap_congr _ _ codes hfilter]
  exact flatMap_single_count u codes hcnt

theorem resolveLoop_single_not_one (t : Str) (all : List Course) (codes : List Str)
    (h : (candidatesFor [] all codes).length ≠ 1) :
    resolveLoop [(t, [])] all codes = ([], [(t, [])]) := by
  rcases hc : candidatesFor [] all codes with _ | ⟨c1, _ | ⟨c2, cs⟩⟩
  · simp [resolveLoop, hc]
  · rw [hc] at h
    simp at h
  · simp [resolveLoop, hc]

theorem resolveLoop_single_one (t : Str) (all : List Course) (codes : List Str)
    (x : Course) (h : candidatesFor [] all codes = [x]) :
    resolveLoop [(t, [])] all codes = ([x], []) := by
  simp [resolveLoop, h]

/-- Claim C10, counterexample: the registry holding the lowercase-coded
course cs101 and the uppercase-coded course CS101 has exactly one course
with a non-empty, already-uppercase code, yet the empty-code query is not
matched to it: both all_course_codes entries uppercase to CS101, so the
CS101 course is collected twice and the query is ambiguous. -/
theorem c10_uppercase_collision_cex :
    ([{ code := some [99, 115, 49, 48, 49], name := [], skills_curated := [] },
      ({ code := some [67, 83, 49, 48, 49], name := [],
         skills_curated := [] } : Course)].filter isUpperCoded) =
      [{ code := some [67, 83, 49, 48, 49], name := [], skills_curated := [] }] ∧
    candidatesFor []
      [{ code := some [99, 115, 49, 48, 49], name := [], skills_curated := [] },
       { code := some [67, 83, 49, 48, 49], name := [], skills_curated := [] }]
      [[67, 83, 49, 48, 49], [67, 83, 49, 48, 49]] =
      [{ code := some [67, 83, 49, 48, 49], name := [], skills_curated := [] },
       { code := some [67, 83, 49, 48, 49], name := [], skills_curated := [] }] ∧
    findRelevantCoursesFull [([84], [])]
      [{ code := some [99, 115, 49, 48, 49], name := [], skills_curated := [] },
       { code := some [67, 83, 49, 48, 49], name := [], skills_curated := [] }] =
      .ok ([], [([84], [])]) := by
  decide

/-- Claim C10 (amended): with all code keys present, every registry course
with a non-empty, already-uppercase code is a candidate for an empty-code
query; with two or more such courses the empty-code query has at least two
candidates and is never matched; with exactly one such course x, the query
is matched to x regardless of its title provided no other course's non-empty
code uppercases to x's code. -/
theorem c10_empty_code_query_behavior (all : List Course) (codes : List Str)
    (h : allCourseCodes all = .ok codes) :
    (∀ c ∈ all, isUpperCoded c = true → c ∈ candidatesFor [] all codes) ∧
    (2 ≤ (all.filter isUpperCoded).length →
      2 ≤ (candidatesFor [] all codes).length ∧
      ∀ t, findRelevantCoursesFull [(t, [])] all = .ok ([], [(t, [])])) ∧
    (∀ x u, x.code = some u → all.filter isUpperCoded = [x] →
      all.filter (hasUpperCode u) = [x] →
      candidatesFor [] all codes = [x] ∧
      ∀ t, findRelevantCoursesFull [(t, [])] all = .ok ([x], [])) := by
  refine ⟨?_, ?_, ?_⟩
  · intro c hc hupc
    cases hcode : c.code with
    | none => simp [isUpperCoded, hcode] at hupc
    | some w =>
      simp only [isUpperCoded, hcode, decide_eq_true_eq] at hupc
      obtain ⟨hwne, hwup⟩ := hupc
      have hmemc : upper w ∈ codes := allCourseCodes_mem h hc hcode hwne
      refine mem_candidatesFor.mpr ⟨upper w, hmemc, isSubstr_nil_left _, hc, ?_⟩
      rw [hwup]
      exact hcode
  · intro h2
    have hle := filterLen_le_candidates all all codes (fun d hd => hd) h
    rw [← candidatesFor_nil_code] at hle
    have hlen : 2 ≤ (candidatesFor [] all codes).length := le_trans h2 hle
    refine ⟨hlen, ?_⟩
    intro t
    simp only [findRelevantCoursesFull, h]
    rw [resolveLoop_single_not_one t all codes (by omega)]
  · intro x u hx hup hu
    have hsingle := candidates_single all codes h x u hx hup hu
    refine ⟨hsingle, ?_⟩
    intro t
    simp only [findRelevantCoursesFull, h]
    rw [resolveLoop_single_one t all codes x hsingle]

/-- Witness for the amended claim C10: a registry with one lowercase-coded
course and one uppercase-coded course whose codes do not collide. -/
theorem c10_empty_code_query_behavior_witness :
    allCourseCodes
        [{ code := some [109, 97, 49], name := [], skills_curated := [] },
         { code := some [67, 83, 49], name := [], skills_curated := [] }] =
      .ok [[77, 65, 49], [67, 83, 49]] ∧
    candidatesFor []
        [{ code := some [109, 97, 49], name := [], skills_curated := [] },
         { code := some [67, 83, 49], name := [], skills_curated := [] }]
        [[77, 65, 49], [67, 83, 49]] =
      [{ code := some [67, 83, 49], name := [], skills_curated := [] }] ∧
    findRelevantCoursesFull [([84], [])]
        [{ code := some [109, 97, 49], name := [], skills_curated := [] },
         { code := some [67, 83, 49], name := [], skills_curated := [] }] =
      .ok ([{ code := some [67, 83, 49], name := [], skills_curated := [] }], []) :=
  ⟨by decide,
   ((c10_empty_code_query_behavior
      [{ code := some [109, 97, 49], name := [], skills_curated := [] },
       { code := some [67, 83, 49], name := [], skills_curated := [] }]
      [[77, 65, 49], [67, 83, 49]] (by decide)).2.2
      { code := some [67, 83, 49], name := [], skills_curated := [] }
      [67, 83, 49] rfl (by decide) (by decide)).1,
   ((c10_empty_code_query_behavior
      [{ code := some [109, 97, 49], name := [], skills_curated := [] },
       { code := some [67, 83, 49], name := [], skills_curated := [] }]
      [[77, 65, 49], [67, 83, 49]] (by decide)).2.2
      { code := some [67, 83, 49], name := [], skills_curated := [] }
      [67, 83, 49] rfl (by decide) (by decide)).2 [84]⟩
